import Mathlib

/-!
# Verification of the `sheetdb` tabular record store

Shallow embedding of the `sheetdb` repository: typed record models with a
field-to-header mapping (`sheetdb/interfaces/model.py`), the delimited-text
adapter `CsvDB` (`sheetdb/backends/csv.py`), and the worksheet-resolution and
insertion paths of the workbook adapter `ExcelDB`
(`sheetdb/backends/excel.py`) and the remote-spreadsheet adapter
`GoogleSheetDB` (`src/backends/gsheet.py`).

Modelling conventions:
* Cell values and field values are strings (the delimited-text medium stores
  strings; the CSV codec itself is an external collaborator and is abstracted
  to a list of rows of strings).
* A Python `dict` is an association list with unique keys; building a dict
  from a (possibly duplicated) pair sequence is `pyDict`, which keeps the
  first occurrence's position and the last occurrence's value, exactly as a
  Python dict comprehension does.
* Record construction `model(**data)` succeeds iff every declared field
  receives a (non-`None`) value; extra keys are ignored and a missing or
  `None` value makes the row unparsable (the adapter then skips the row).
-/

/-- Python `dict.get k`: the value of the first pair whose key is `k`
(association lists produced by `pyDict` have unique keys). -/
def dget {α : Type} : List (String × α) → String → Option α
  | [], _ => none
  | p :: rest, k => if p.1 = k then some p.2 else dget rest k

/-- Value of the *last* pair whose key is `k`; this is what a Python dict
built from the pair sequence stores under `k` (later entries override). -/
def dlast {α : Type} : List (String × α) → String → Option α
  | [], _ => none
  | p :: rest, k =>
    match dlast rest k with
    | some v => some v
    | none => if p.1 = k then some p.2 else none

/-- Drop every pair whose key is `a`. -/
def derase {α : Type} (l : List (String × α)) (a : String) : List (String × α) :=
  l.filter (fun q => !(q.1 = a : Bool))

/-- Build a Python dict from a sequence of key-value pairs: first occurrence
of a key fixes its position, the last occurrence fixes its value. -/
def pyDict {α : Type} : List (String × α) → List (String × α)
  | [] => []
  | p :: rest =>
    match dget (pyDict rest) p.1 with
    | some v => (p.1, v) :: derase (pyDict rest) p.1
    | none => p :: pyDict rest

/-- Python `d[k] = v` on a key-unique association list: overwrite in place if
the key exists, append otherwise. -/
def dset {α : Type} (d : List (String × α)) (k : String) (v : α) : List (String × α) :=
  if (d.map Prod.fst).contains k then
    d.map (fun p => if p.1 = k then (p.1, v) else p)
  else d ++ [(k, v)]

/-- `dict(zip(headers, row))` as built by `csv.DictReader`, with `restval =
None`: headers beyond the row's length get `none`; cells beyond the headers
are not represented here (they land under the `None` restkey, which makes the
subsequent `model(**data)` call fail — the caller checks the lengths). -/
def zipPad : List String → List String → List (String × Option String)
  | [], _ => []
  | h :: hs, [] => (h, none) :: zipPad hs []
  | h :: hs, v :: vs => (h, some v) :: zipPad hs vs

/-- Error kinds surfaced by the adapters: `NotFoundError` from
`sheetdb/exceptions.py`, Python's `ValueError` (raised by `_get_worksheet`
when a sheet is absent and no headers are supplied) and the `ValueError`
raised by `setattr` on a field the model does not declare. -/
inductive DbError
  | notFound
  | valueError
  | attrError
deriving DecidableEq, Repr

deriving instance DecidableEq for Except

/-- A concrete `SheetModel` subclass: its logical sheet name, its declared
fields in declaration order, and the literal field-to-header mapping returned
by the subclass's `get_field_map` classmethod. -/
structure ModelType where
  sheet_name : String
  fields : List String
  field_map : List (String × String)
deriving DecidableEq, Repr

/-- A `SheetModel` instance: its field values in declaration order
(`model_dump()` yields exactly this association list). -/
structure Record where
  values : List (String × String)
deriving DecidableEq, Repr

/-- `get_field_map`: the field-to-header dict of the model type. -/
def ModelType.get_field_map (m : ModelType) : List (String × String) :=
  pyDict m.field_map

/-- `SheetModel.generate_field_map`: `{v: k for k, v in field_map.items()}`,
the header-to-field dict obtained by swapping every pair of the field map
(later pairs override on duplicate headers). -/
def ModelType.generate_field_map (m : ModelType) : List (String × String) :=
  pyDict (m.get_field_map.map (fun p => (p.2, p.1)))

/-- `field_map.get(f, f)`: the storage header of field `f`. -/
def mappedName (m : ModelType) (f : String) : String :=
  (dget m.get_field_map f).getD f

/-- `generate_field_map().get(h, h)`: the model field a header maps back to. -/
def revName (m : ModelType) (h : String) : String :=
  (dget m.generate_field_map h).getD h

/-- `getattr(item, k, None)`. -/
def getAttr (r : Record) (k : String) : Option String :=
  dget r.values k

/-- `setattr(item, k, v)`: pydantic rejects assignment to a name that is not
a declared field, so the result is `none` in that case. -/
def setAttr (r : Record) (k : String) (v : String) : Option Record :=
  if (r.values.map Prod.fst).contains k then
    some ⟨r.values.map (fun p => if p.1 = k then (p.1, v) else p)⟩
  else none

/-- Apply `update_data` as successive `setattr` calls. -/
def applyUpdates (r : Record) (upd : List (String × String)) : Option Record :=
  upd.foldlM (fun acc p => setAttr acc p.1 p.2) r

/-- `all(getattr(item, k, None) == v for k, v in filters.items())`. -/
def matchesF (r : Record) (filters : List (String × String)) : Bool :=
  filters.all (fun p => getAttr r p.1 == some p.2)

/-- `{field_map.get(k, k): v for k, v in model.model_dump().items()}`: the
record's values keyed by storage header. -/
def mappedRow (m : ModelType) (r : Record) : List (String × String) :=
  pyDict (r.values.map (fun p => (mappedName m p.1, p.2)))

/-- `model(**d)`: construction succeeds iff every declared field receives a
value that is not `None`; extra keys are ignored (pydantic's default
`extra='ignore'`). -/
def construct (m : ModelType) (d : List (String × Option String)) : Option Record :=
  let vals := m.fields.map (fun f => (f, Option.join (dget d f)))
  if vals.all (fun p => p.2.isSome) then
    some ⟨vals.map (fun p => (p.1, p.2.getD ""))⟩
  else none

/-- The per-row body of `CsvDB.get_all`: `csv.DictReader` pairs the row with
the header line (`None`-padding short rows; a row longer than the header line
puts the extra cells under the `None` restkey, so `model(**data)` raises
`TypeError` and the row is skipped), the headers are reverse-mapped through
`generate_field_map`, and the model is constructed. -/
def parseDataRow (m : ModelType) (headers row : List String) : Option Record :=
  if headers.length < row.length then none
  else construct m (pyDict ((pyDict (zipPad headers row)).map (fun p => (revName m p.1, p.2))))

/-- One row of `CsvDB.update`/`CsvDB.delete`'s rewrite:
`[getattr(item, model.generate_field_map().get(h, h), "") for h in headers]`. -/
def projRow (m : ModelType) (headers : List String) (r : Record) : List String :=
  headers.map (fun h => (getAttr r (revName m h)).getD "")

/-- The state a `CsvDB` instance acts on: the backing file (`none` when the
file does not exist; otherwise the list of its physical lines, each a list of
cells) and this path's entry in the process-wide `cache_headers` dict. -/
structure CsvState where
  file : Option (List (List String))
  cache : Option (List String)
deriving DecidableEq, Repr

namespace CsvDB

/-- `CsvDB._get_headers`: answer from the cache when present; return `[]`
without caching when the file does not exist; otherwise read and cache the
first line (`next(reader, [])` gives `[]` for an empty file). -/
def getHeaders (st : CsvState) : List String × CsvState :=
  match st.cache with
  | some hs => (hs, st)
  | none =>
    match st.file with
    | none => ([], st)
    | some lines => (lines.headD [], { st with cache := some (lines.headD []) })

/-- `CsvDB._write_rows`: rewrite the whole file as header line plus rows. -/
def writeRows (st : CsvState) (headers : List String) (rows : List (List String)) : CsvState :=
  { st with file := some (headers :: rows) }

/-- `CsvDB._append_row`: append one line; opening in `"a"` mode creates the
file when it is absent. -/
def appendRow (st : CsvState) (row : List String) : CsvState :=
  { st with file := some ((st.file.getD []) ++ [row]) }

/-- `CsvDB.insert_many`. -/
def insert_many (st : CsvState) (m : ModelType) (models : List Record) : CsvState :=
  match models with
  | [] => st
  | r0 :: _ =>
    let mappedRows := models.map (mappedRow m)
    let p := getHeaders st
    let q : List String × CsvState :=
      if p.1 = [] then
        let hs := (mappedRow m r0).map Prod.fst
        (hs, { file := some [hs], cache := some hs })
      else p
    mappedRows.foldl (fun acc row => appendRow acc (q.1.map (fun h => (dget row h).getD ""))) q.2

/-- `CsvDB.insert`. -/
def insert (st : CsvState) (m : ModelType) (r : Record) : CsvState :=
  insert_many st m [r]

/-- `CsvDB.get_all`: missing file gives `[]`; otherwise parse every non-blank
data line (unparsable rows are logged and skipped) and, when `filters` is
non-empty, keep the records matching every filter equality. -/
def get_all (st : CsvState) (m : ModelType) (filters : List (String × String)) : List Record :=
  match st.file with
  | none => []
  | some [] => []
  | some (headers :: rows) =>
    let items := (rows.filter (fun r => !r.isEmpty)).filterMap (parseDataRow m headers)
    if filters.isEmpty then items else items.filter (fun it => matchesF it filters)

/-- `CsvDB.get_one`: scan the unfiltered `get_all` result for the first
match; `NotFoundError` when there is none. -/
def get_one (st : CsvState) (m : ModelType) (filters : List (String × String)) :
    Except DbError Record :=
  match (get_all st m []).find? (fun it => matchesF it filters) with
  | some it => .ok it
  | none => .error .notFound

/-- The scan loop of `CsvDB.update`: find the first matching record, apply
the `setattr` assignments to it and stop (`break`); `NotFoundError` when no
record matches. -/
def updateScan (filters upd : List (String × String)) :
    List Record → Except DbError (List Record × Record)
  | [] => .error .notFound
  | r :: rest =>
    if matchesF r filters then
      match applyUpdates r upd with
      | none => .error .attrError
      | some r2 => .ok (r2 :: rest, r2)
    else (updateScan filters upd rest).map (fun p => (r :: p.1, p.2))

/-- `CsvDB.update`: load everything, mutate the first match in memory,
rewrite the full row set through the header projection. -/
def update (st : CsvState) (m : ModelType) (filters upd : List (String × String)) :
    CsvState × Except DbError Record :=
  match updateScan filters upd (get_all st m []) with
  | .error e => (st, .error e)
  | .ok (data2, item) =>
    let p := getHeaders st
    (writeRows p.2 p.1 (data2.map (fun it => projRow m p.1 it)), .ok item)

/-- The loop body of `CsvDB.delete`: a matching record is skipped (and
remembered as `deleted_item`, each match overwriting the previous one — the
loop has no `break`), a non-matching record is kept. -/
def deleteStep (filters : List (String × String)) (acc : List Record × Option Record)
    (r : Record) : List Record × Option Record :=
  if matchesF r filters then (acc.1, some r) else (acc.1 ++ [r], acc.2)

/-- `CsvDB.delete`: scan the full record list, drop every match, rewrite the
remaining records; `NotFoundError` when nothing matched. -/
def delete (st : CsvState) (m : ModelType) (filters : List (String × String)) :
    CsvState × Except DbError Record :=
  let scan := (get_all st m []).foldl (deleteStep filters) ([], none)
  match scan.2 with
  | none => (st, .error .notFound)
  | some item =>
    let p := getHeaders st
    (writeRows p.2 p.1 (scan.1.map (fun it => projRow m p.1 it)), .ok item)

/-- `CsvDB.delete_all`: when headers exist, rewrite the file as the header
line alone; otherwise do nothing. -/
def delete_all (st : CsvState) (_m : ModelType) : CsvState :=
  let p := getHeaders st
  if p.1 = [] then p.2 else writeRows p.2 p.1 []

end CsvDB

/-- The state an `ExcelDB` instance acts on: the loaded workbook (worksheets
by name, each a list of physical rows) and the process-wide `cache_headers`
dict keyed by sheet name. Workbook cells are modelled as strings. -/
structure XlState where
  sheets : List (String × List (List String))
  cache : List (String × List String)
deriving DecidableEq, Repr

namespace ExcelDB

/-- `ExcelDB._get_headers`: cache hit, or read and cache the sheet's first
row. Returns the headers together with the updated state. -/
def getHeaders (wst : XlState) (ws : List (List String)) (sheet_name : String) :
    List String × XlState :=
  match dget wst.cache sheet_name with
  | some hs => (hs, wst)
  | none => (ws.headD [], { wst with cache := dset wst.cache sheet_name (ws.headD []) })

/-- `ExcelDB.get_all`: resolve the worksheet via `_get_worksheet(workbook,
sheet_name)` — with no `headers` argument, an absent sheet raises
`ValueError` — then reverse-map `zip(headers, row)` for every data row and
construct the model, skipping unparsable rows and applying the filters. -/
def get_all (wst : XlState) (m : ModelType) (filters : List (String × String)) :
    XlState × Except DbError (List Record) :=
  match dget wst.sheets m.sheet_name with
  | none => (wst, .error .valueError)
  | some ws =>
    let p := getHeaders wst ws m.sheet_name
    let items := (ws.drop 1).filterMap (fun row =>
      construct m (pyDict (((p.1).zip row).map (fun q => (revName m q.1, some q.2)))))
    (p.2, .ok (if filters.isEmpty then items else items.filter (fun it => matchesF it filters)))

end ExcelDB

/-- The state a `GoogleSheetDB` instance acts on: the remote spreadsheet's
worksheets by title and the process-wide `cache_headers` dict. -/
structure GsState where
  sheets : List (String × List (List String))
  cache : List (String × List String)
deriving DecidableEq, Repr

namespace GoogleSheetDB

/-- `GoogleSheetDB._get_headers`: cache hit, or read and cache
`ws.row_values(1)`. -/
def getHeaders (gst : GsState) (ws : List (List String)) (sheet_name : String) :
    List String × GsState :=
  match dget gst.cache sheet_name with
  | some hs => (hs, gst)
  | none => (ws.headD [], { gst with cache := dset gst.cache sheet_name (ws.headD []) })

/-- `GoogleSheetDB.get_all`: resolve the worksheet via
`_get_worksheet(sheet_name)` — with no `headers` argument, an absent sheet
raises `ValueError` — then reverse-map `zip(headers, row)` for every row
after the first and construct the model, skipping unparsable rows and
applying the filters. -/
def get_all (gst : GsState) (m : ModelType) (filters : List (String × String)) :
    GsState × Except DbError (List Record) :=
  match dget gst.sheets m.sheet_name with
  | none => (gst, .error .valueError)
  | some ws =>
    let p := getHeaders gst ws m.sheet_name
    let items := (ws.drop 1).filterMap (fun row =>
      construct m (pyDict (((p.1).zip row).map (fun q => (revName m q.1, some q.2)))))
    (p.2, .ok (if filters.isEmpty then items else items.filter (fun it => matchesF it filters)))

/-- `GoogleSheetDB.insert_many`: empty input returns immediately; otherwise
resolve or create the worksheet (creation writes the first record's mapped
field names as the header row and caches them), then append one projected row
per record via `append_rows`. -/
def insert_many (gst : GsState) (m : ModelType) (models : List Record) : GsState :=
  match models with
  | [] => gst
  | r0 :: _ =>
    let mappedRows := models.map (mappedRow m)
    let p : GsState × List (List String) :=
      match dget gst.sheets m.sheet_name with
      | some ws => (gst, ws)
      | none =>
        let hs := (mappedRow m r0).map Prod.fst
        ({ sheets := gst.sheets ++ [(m.sheet_name, [hs])],
           cache := dset gst.cache m.sheet_name hs }, [hs])
    let q := getHeaders p.1 p.2 m.sheet_name
    let newRows := mappedRows.map (fun row => q.1.map (fun h => (dget row h).getD ""))
    { q.2 with sheets := dset q.2.sheets m.sheet_name (p.2 ++ newRows) }

end GoogleSheetDB


/-! ## Dictionary lemmas -/

theorem dget_eq_none {α : Type} {l : List (String × α)} {k : String} :
    dget l k = none ↔ ∀ p ∈ l, p.1 ≠ k := by
  induction l with
  | nil => simp [dget]
  | cons p rest ih =>
    obtain ⟨a, b⟩ := p
    by_cases h : a = k <;> simp [dget, h, ih]

theorem dget_mem {α : Type} {l : List (String × α)} {k : String} {v : α}
    (h : dget l k = some v) : (k, v) ∈ l := by
  induction l with
  | nil => simp [dget] at h
  | cons p rest ih =>
    obtain ⟨a, b⟩ := p
    by_cases ha : a = k
    · simp [dget, ha] at h
      subst ha; subst h
      exact List.mem_cons_self _ _
    · simp [dget, ha] at h
      exact List.mem_cons_of_mem _ (ih h)

theorem dget_isSome_of_key {α : Type} {l : List (String × α)} {k : String}
    (h : ∃ p ∈ l, p.1 = k) : (dget l k).isSome := by
  cases hd : dget l k with
  | some v => rfl
  | none =>
    obtain ⟨p, hp, hk⟩ := h
    exact absurd hk (dget_eq_none.mp hd p hp)

theorem dget_mem_iff {α : Type} {l : List (String × α)} {k : String} {v : α}
    (hnd : (l.map Prod.fst).Nodup) : dget l k = some v ↔ (k, v) ∈ l := by
  constructor
  · exact dget_mem
  · intro hmem
    induction l with
    | nil => simp at hmem
    | cons p rest ih =>
      simp only [List.map_cons, List.nodup_cons] at hnd
      rcases List.mem_cons.mp hmem with heq | htl
      · subst heq; simp [dget]
      · have hk : p.1 ≠ k := by
          intro hk
          exact hnd.1 (hk ▸ List.mem_map_of_mem Prod.fst htl)
        simp only [dget, if_neg hk]
        exact ih hnd.2 htl

theorem dlast_mem {α : Type} {l : List (String × α)} {k : String} {v : α}
    (h : dlast l k = some v) : (k, v) ∈ l := by
  induction l with
  | nil => simp [dlast] at h
  | cons p rest ih =>
    obtain ⟨a, b⟩ := p
    rw [dlast] at h
    cases hr : dlast rest k with
    | some w =>
      rw [hr] at h
      exact List.mem_cons_of_mem _ (ih (hr.trans h))
    | none =>
      rw [hr] at h
      by_cases ha : a = k
      · simp [ha] at h
        subst ha; subst h
        exact List.mem_cons_self _ _
      · simp [ha] at h

theorem dlast_eq_none {α : Type} {l : List (String × α)} {k : String} :
    dlast l k = none ↔ ∀ p ∈ l, p.1 ≠ k := by
  induction l with
  | nil => simp [dlast]
  | cons p rest ih =>
    obtain ⟨a, b⟩ := p
    rw [dlast]
    cases hr : dlast rest k with
    | some v =>
      constructor
      · intro h; exact absurd h (by simp)
      · intro h; exact absurd rfl (h _ (List.mem_cons_of_mem _ (dlast_mem hr)))
    | none =>
      have hall := ih.mp hr
      by_cases ha : a = k
      · simp only [if_pos ha]
        constructor
        · intro h; exact absurd h (by simp)
        · intro h; exact absurd ha (h (a, b) (List.mem_cons_self _ _))
      · simp only [if_neg ha]
        constructor
        · intro _ q hq
          rcases List.mem_cons.mp hq with h1 | h2
          · subst h1; exact ha
          · exact hall q h2
        · intro _; trivial

theorem dlast_isSome_of_key {α : Type} {l : List (String × α)} {k : String}
    (h : ∃ p ∈ l, p.1 = k) : (dlast l k).isSome := by
  cases hd : dlast l k with
  | some v => rfl
  | none =>
    obtain ⟨p, hp, hk⟩ := h
    exact absurd hk (dlast_eq_none.mp hd p hp)

theorem derase_cons_of_eq {α : Type} {x a : String} {y : α} {rest : List (String × α)}
    (hx : x = a) : derase ((x, y) :: rest) a = derase rest a := by
  simp [derase, List.filter_cons, hx]

theorem derase_cons_of_ne {α : Type} {x a : String} {y : α} {rest : List (String × α)}
    (hx : x ≠ a) : derase ((x, y) :: rest) a = (x, y) :: derase rest a := by
  simp [derase, List.filter_cons, hx]

theorem dget_derase_ne {α : Type} {l : List (String × α)} {a k : String} (hka : k ≠ a) :
    dget (derase l a) k = dget l k := by
  induction l with
  | nil => rfl
  | cons p rest ih =>
    obtain ⟨x, y⟩ := p
    by_cases hx : x = a
    · have hxk : ¬ x = k := fun h => hka (h.symm.trans hx)
      rw [derase_cons_of_eq hx, ih, dget, if_neg hxk]
    · rw [derase_cons_of_ne hx]
      by_cases hxk : x = k
      · rw [dget, if_pos hxk, dget, if_pos hxk]
      · rw [dget, if_neg hxk, ih, dget, if_neg hxk]

theorem dget_pyDict {α : Type} (l : List (String × α)) (k : String) :
    dget (pyDict l) k = dlast l k := by
  induction l generalizing k with
  | nil => rfl
  | cons p rest ih =>
    obtain ⟨x, y⟩ := p
    by_cases hk : x = k
    · subst hk
      cases hr : dget (pyDict rest) x with
      | some v =>
        have hl : dlast rest x = some v := (ih x).symm.trans hr
        simp [pyDict, dlast, hr, hl, dget]
      | none =>
        have hl : dlast rest x = none := (ih x).symm.trans hr
        simp [pyDict, dlast, hr, hl, dget]
    · cases hr : dget (pyDict rest) x with
      | some v =>
        have hkx : k ≠ x := fun h => hk h.symm
        simp only [pyDict, hr]
        rw [dget, if_neg hk, dget_derase_ne hkx, ih]
        rw [dlast]
        cases dlast rest k <;> simp [hk]
      | none =>
        simp only [pyDict, hr]
        rw [dget, if_neg hk, ih]
        rw [dlast]
        cases dlast rest k <;> simp [hk]

theorem pyDict_mem {α : Type} {l : List (String × α)} {q : String × α}
    (h : q ∈ pyDict l) : q ∈ l := by
  induction l with
  | nil => simp [pyDict] at h
  | cons p rest ih =>
    rw [pyDict] at h
    cases hr : dget (pyDict rest) p.1 with
    | some v =>
      rw [hr] at h
      rcases List.mem_cons.mp h with heq | htl
      · subst heq
        exact List.mem_cons_of_mem _ (ih (dget_mem hr))
      · exact List.mem_cons_of_mem _ (ih (List.mem_of_mem_filter htl))
    | none =>
      rw [hr] at h
      rcases List.mem_cons.mp h with heq | htl
      · exact heq ▸ List.mem_cons_self _ _
      · exact List.mem_cons_of_mem _ (ih htl)

theorem pyDict_keys_nodup {α : Type} (l : List (String × α)) :
    ((pyDict l).map Prod.fst).Nodup := by
  induction l with
  | nil => simp [pyDict]
  | cons p rest ih =>
    rw [pyDict]
    cases hr : dget (pyDict rest) p.1 with
    | some v =>
      simp only [List.map_cons, List.nodup_cons]
      refine ⟨?_, ?_⟩
      · intro hmem
        obtain ⟨q, hq, hq1⟩ := List.mem_map.mp hmem
        have := List.of_mem_filter hq
        simp at this
        exact this hq1
      · exact List.Nodup.sublist ((List.filter_sublist _).map Prod.fst) ih
    | none =>
      simp only [List.map_cons, List.nodup_cons]
      refine ⟨?_, ih⟩
      intro hmem
      obtain ⟨q, hq, hq1⟩ := List.mem_map.mp hmem
      exact absurd hq1 (dget_eq_none.mp hr q hq)

theorem pyDict_eq_self {α : Type} {l : List (String × α)}
    (hnd : (l.map Prod.fst).Nodup) : pyDict l = l := by
  induction l with
  | nil => rfl
  | cons p rest ih =>
    simp only [List.map_cons, List.nodup_cons] at hnd
    have hrest : pyDict rest = rest := ih hnd.2
    have hnone : dget rest p.1 = none := by
      rw [dget_eq_none]
      intro q hq hq1
      exact hnd.1 (hq1 ▸ List.mem_map_of_mem Prod.fst hq)
    simp only [pyDict, hrest, hnone]

/-! ## Construction and round-trip lemmas -/

theorem construct_eq (m : ModelType) (d : List (String × Option String)) :
    construct m d =
      if (m.fields.map (fun f => (f, Option.join (dget d f)))).all (fun p => p.2.isSome) then
        some ⟨(m.fields.map (fun f => (f, Option.join (dget d f)))).map
          (fun p => (p.1, p.2.getD ""))⟩
      else none := rfl

theorem construct_wf {m : ModelType} {d : List (String × Option String)} {r : Record}
    (h : construct m d = some r) : r.values.map Prod.fst = m.fields := by
  rw [construct_eq] at h
  split at h
  · injection h with h2
    subst h2
    simp only [List.map_map]
    exact List.map_id m.fields
  · cases h

theorem map_dget_of_keys {α : Type} {l : List (String × α)} (d : α)
    (hnd : (l.map Prod.fst).Nodup) :
    (l.map Prod.fst).map (fun k => (k, (dget l k).getD d)) = l := by
  induction l with
  | nil => rfl
  | cons p rest ih =>
    obtain ⟨x, y⟩ := p
    simp only [List.map_cons, List.nodup_cons] at hnd
    simp only [List.map_cons]
    have h1 : dget ((x, y) :: rest) x = some y := by simp [dget]
    rw [h1]
    have h2 : ∀ k ∈ rest.map Prod.fst,
        (fun k => (k, (dget ((x, y) :: rest) k).getD d)) k
          = (fun k => (k, (dget rest k).getD d)) k := by
      intro k hkmem
      have hxk : ¬ x = k := fun h => hnd.1 (h ▸ hkmem)
      simp [dget, hxk]
    rw [List.map_congr_left h2, ih hnd.2]
    rfl

theorem zipPad_map (H : List String) (f : String → String) :
    zipPad H (H.map f) = H.map (fun h => (h, some (f h))) := by
  induction H with
  | nil => rfl
  | cons h hs ih => simp [zipPad, List.map_cons, ih]

/-- Round trip: a row whose cell under header `h` is the value of the record's
field `revName m h` (empty string when that field is absent) parses back to
the very record, provided every field is covered by some header. -/
theorem parse_row_of_fn (m : ModelType) (H : List String) (cellFn : String → String)
    (r : Record)
    (hnd : m.fields.Nodup)
    (hwf : r.values.map Prod.fst = m.fields)
    (hcell : ∀ h ∈ H, cellFn h = (getAttr r (revName m h)).getD "")
    (hcov : ∀ f ∈ m.fields, ∃ h ∈ H, revName m h = f) :
    parseDataRow m H (H.map cellFn) = some r := by
  have hlen : ¬ (H.length < (H.map cellFn).length) := by simp
  rw [parseDataRow, if_neg hlen, zipPad_map]
  have hfn : ∀ q ∈ (pyDict (H.map (fun h => (h, some (cellFn h))))).map
      (fun p => (revName m p.1, p.2)), q.2 = some ((getAttr r q.1).getD "") := by
    intro q hq
    obtain ⟨p, hp, hpq⟩ := List.mem_map.mp hq
    obtain ⟨h, hh, hph⟩ := List.mem_map.mp (pyDict_mem hp)
    subst hpq
    subst hph
    exact congrArg some (hcell h hh)
  have hkeys : ∀ f ∈ m.fields, ∃ q ∈ (pyDict (H.map (fun h => (h, some (cellFn h))))).map
      (fun p => (revName m p.1, p.2)), q.1 = f := by
    intro f hf
    obtain ⟨h, hh, hrev⟩ := hcov f hf
    have h1 : ∃ p ∈ H.map (fun h => (h, some (cellFn h))), p.1 = h :=
      ⟨(h, some (cellFn h)), List.mem_map_of_mem _ hh, rfl⟩
    have h2 : (dget (pyDict (H.map (fun h => (h, some (cellFn h))))) h).isSome := by
      rw [dget_pyDict]; exact dlast_isSome_of_key h1
    obtain ⟨v, hv⟩ := Option.isSome_iff_exists.mp h2
    exact ⟨(revName m h, v), List.mem_map_of_mem _ (dget_mem hv), hrev⟩
  have hget : ∀ f ∈ m.fields,
      dget (pyDict ((pyDict (H.map (fun h => (h, some (cellFn h))))).map
        (fun p => (revName m p.1, p.2)))) f = some (some ((getAttr r f).getD "")) := by
    intro f hf
    rw [dget_pyDict]
    have hs : (dlast ((pyDict (H.map (fun h => (h, some (cellFn h))))).map
        (fun p => (revName m p.1, p.2))) f).isSome :=
      dlast_isSome_of_key (hkeys f hf)
    obtain ⟨v, hv⟩ := Option.isSome_iff_exists.mp hs
    have hveq := hfn _ (dlast_mem hv)
    rw [hv]
    exact congrArg some hveq
  have hattr : ∀ f ∈ m.fields, (getAttr r f).isSome := by
    intro f hf
    have hf2 : f ∈ r.values.map Prod.fst := hwf.symm ▸ hf
    obtain ⟨p, hp, hp1⟩ := List.mem_map.mp hf2
    exact dget_isSome_of_key ⟨p, hp, hp1⟩
  rw [construct_eq]
  have hvals : m.fields.map (fun f => (f, Option.join (dget
      (pyDict ((pyDict (H.map (fun h => (h, some (cellFn h))))).map
        (fun p => (revName m p.1, p.2)))) f)))
      = m.fields.map (fun f => (f, getAttr r f)) := by
    apply List.map_congr_left
    intro f hf
    rw [hget f hf]
    obtain ⟨v, hv⟩ := Option.isSome_iff_exists.mp (hattr f hf)
    simp [hv]
  rw [hvals]
  have hall : (m.fields.map (fun f => (f, getAttr r f))).all (fun p => p.2.isSome) = true := by
    rw [List.all_eq_true]
    intro p hp
    obtain ⟨f, hf, hfp⟩ := List.mem_map.mp hp
    subst hfp
    exact hattr f hf
  rw [if_pos hall]
  have hnd' : (r.values.map Prod.fst).Nodup := by rw [hwf]; exact hnd
  have hrec := map_dget_of_keys "" hnd'
  rw [hwf] at hrec
  have hx : ((m.fields.map (fun f => (f, getAttr r f))).map (fun p => (p.1, p.2.getD "")))
      = r.values := by
    simp only [List.map_map]
    exact hrec
  rw [hx]

/-! ## Scan and fold characterizations -/

theorem find?_eq_filter_head {α : Type} (p : α → Bool) (l : List α) :
    l.find? p = (l.filter p).head? := by
  induction l with
  | nil => rfl
  | cons a l ih =>
    cases ha : p a
    · rw [List.find?_cons_of_neg _ (by simp [ha]), List.filter_cons, if_neg (by simp [ha]), ih]
    · rw [List.find?_cons_of_pos _ ha, List.filter_cons, if_pos ha, List.head?_cons]

theorem matchesF_nil (r : Record) : matchesF r [] = true := rfl

theorem filter_matchesF_nil (L : List Record) : L.filter (fun it => matchesF it []) = L := by
  induction L with
  | nil => rfl
  | cons a t ih => rw [List.filter_cons, if_pos (matchesF_nil a), ih]

theorem get_all_eq_filter (st : CsvState) (m : ModelType) (fl : List (String × String)) :
    CsvDB.get_all st m fl = (CsvDB.get_all st m []).filter (fun it => matchesF it fl) := by
  cases fl with
  | nil => exact (filter_matchesF_nil _).symm
  | cons a tl =>
    obtain ⟨file, cache⟩ := st
    cases file with
    | none => rfl
    | some lines =>
      cases lines with
      | nil => rfl
      | cons H rows => rfl

theorem parseDataRow_wf {m : ModelType} {H row : List String} {r : Record}
    (h : parseDataRow m H row = some r) : r.values.map Prod.fst = m.fields := by
  rw [parseDataRow] at h
  split at h
  · cases h
  · exact construct_wf h

theorem get_all_wf {st : CsvState} {m : ModelType} {fl : List (String × String)} {r : Record}
    (h : r ∈ CsvDB.get_all st m fl) : r.values.map Prod.fst = m.fields := by
  rw [get_all_eq_filter] at h
  have h2 := List.mem_of_mem_filter h
  obtain ⟨file, cache⟩ := st
  cases file with
  | none => simp [CsvDB.get_all] at h2
  | some lines =>
    cases lines with
    | nil => simp [CsvDB.get_all] at h2
    | cons H rows =>
      simp only [CsvDB.get_all, List.isEmpty_nil, if_true] at h2
      obtain ⟨row, _, hp⟩ := List.mem_filterMap.mp h2
      exact parseDataRow_wf hp

theorem deleteFold_fst (fl : List (String × String)) (data acc : List Record)
    (del : Option Record) :
    (data.foldl (CsvDB.deleteStep fl) (acc, del)).1
      = acc ++ data.filter (fun r => !matchesF r fl) := by
  induction data generalizing acc del with
  | nil => simp
  | cons r rest ih =>
    cases hr : matchesF r fl
    · simp [List.foldl_cons, CsvDB.deleteStep, hr, ih, List.filter_cons, List.append_assoc]
    · simp [List.foldl_cons, CsvDB.deleteStep, hr, ih, List.filter_cons]

theorem getLast?_cons_or {α : Type} (r : α) (L : List α) :
    (r :: L).getLast? = L.getLast?.or (some r) := by
  cases L with
  | nil => rfl
  | cons b L2 =>
    rw [List.getLast?_cons_cons]
    cases hg : (b :: L2).getLast? with
    | none =>
      have : (b :: L2).getLast?.isSome := List.getLast?_isSome.mpr (List.cons_ne_nil b L2)
      rw [hg] at this
      simp at this
    | some x => rfl

theorem deleteFold_snd (fl : List (String × String)) (data : List Record)
    (acc : List Record) (del : Option Record) :
    (data.foldl (CsvDB.deleteStep fl) (acc, del)).2
      = ((data.filter (fun r => matchesF r fl)).getLast?).or del := by
  induction data generalizing acc del with
  | nil => simp
  | cons r rest ih =>
    cases hr : matchesF r fl
    · simp [List.foldl_cons, CsvDB.deleteStep, hr, ih, List.filter_cons]
    · rw [List.foldl_cons]
      have hstep : CsvDB.deleteStep fl (acc, del) r = (acc, some r) := by
        simp [CsvDB.deleteStep, hr]
      rw [hstep, ih, List.filter_cons]
      simp only [hr, if_pos]
      rw [getLast?_cons_or]
      cases (rest.filter (fun r => matchesF r fl)).getLast? <;> rfl

theorem updateScan_map_snd (fl upd : List (String × String)) (l : List Record) :
    (CsvDB.updateScan fl upd l).map Prod.snd =
      (match (l.filter (fun r => matchesF r fl)).head? with
       | none => Except.error DbError.notFound
       | some r =>
         match applyUpdates r upd with
         | none => Except.error DbError.attrError
         | some r2 => Except.ok r2) := by
  induction l with
  | nil => rfl
  | cons r rest ih =>
    cases hr : matchesF r fl
    · have hstep : (CsvDB.updateScan fl upd (r :: rest)).map Prod.snd
          = (CsvDB.updateScan fl upd rest).map Prod.snd := by
        rw [CsvDB.updateScan, if_neg (by simp [hr])]
        cases CsvDB.updateScan fl upd rest <;> rfl
      rw [hstep, ih, List.filter_cons]
      simp [hr]
    · have hrhs : (match (r :: rest.filter (fun r => matchesF r fl)).head? with
         | none => Except.error DbError.notFound
         | some r =>
           match applyUpdates r upd with
           | none => Except.error DbError.attrError
           | some r2 => Except.ok r2) = (match applyUpdates r upd with
           | none => Except.error DbError.attrError
           | some r2 => Except.ok r2) := rfl
      rw [CsvDB.updateScan, if_pos hr, List.filter_cons, if_pos hr, hrhs]
      cases applyUpdates r upd <;> rfl

theorem filterMap_eq_map_of_some {α β : Type} {l : List α} {g : α → Option β} {f : α → β}
    (h : ∀ a ∈ l, g a = some (f a)) : l.filterMap g = l.map f := by
  induction l with
  | nil => rfl
  | cons a l ih =>
    rw [List.filterMap_cons, h a (List.mem_cons_self a l), List.map_cons,
        ih (fun b hb => h b (List.mem_cons_of_mem a hb))]

theorem filter_nonblank {rows : List (List String)} (h : ∀ r ∈ rows, r ≠ []) :
    rows.filter (fun r => !r.isEmpty) = rows := by
  induction rows with
  | nil => rfl
  | cons r rest ih =>
    cases r with
    | nil => exact absurd rfl (h [] (List.mem_cons_self _ _))
    | cons a t =>
      rw [List.filter_cons]
      simp only [List.isEmpty_cons, Bool.not_false, if_pos]
      rw [ih (fun q hq => h q (List.mem_cons_of_mem _ hq))]

theorem foldl_appendRow {β : Type} (g : β → List String) (rows : List β) (st : CsvState)
    (hne : rows ≠ []) :
    rows.foldl (fun acc row => CsvDB.appendRow acc (g row)) st
      = { st with file := some ((st.file.getD []) ++ rows.map g) } := by
  induction rows generalizing st with
  | nil => exact absurd rfl hne
  | cons x xs ih =>
    rw [List.foldl_cons]
    cases hxs : xs with
    | nil => simp [CsvDB.appendRow]
    | cons y ys =>
      rw [← hxs, ih (CsvDB.appendRow st (g x)) (hxs ▸ List.cons_ne_nil y ys)]
      simp [CsvDB.appendRow, List.append_assoc]

/-! ## Insert closed form and model well-formedness -/

theorem insert_many_spec (st : CsvState) (m : ModelType) (r0 : Record) (rs : List Record) :
    CsvDB.insert_many st m (r0 :: rs) =
      if (CsvDB.getHeaders st).1 = [] then
        { file := some (((mappedRow m r0).map Prod.fst) ::
            (r0 :: rs).map (fun r => ((mappedRow m r0).map Prod.fst).map
              (fun h => (dget (mappedRow m r) h).getD ""))),
          cache := some ((mappedRow m r0).map Prod.fst) }
      else
        { (CsvDB.getHeaders st).2 with
          file := some (((CsvDB.getHeaders st).2.file.getD []) ++
            (r0 :: rs).map (fun r => (CsvDB.getHeaders st).1.map
              (fun h => (dget (mappedRow m r) h).getD ""))) } := by
  simp only [CsvDB.insert_many]
  by_cases hp : (CsvDB.getHeaders st).1 = []
  · rw [if_pos hp, if_pos hp]
    rw [foldl_appendRow (fun row => ((mappedRow m r0).map Prod.fst).map
        (fun h => (dget row h).getD "")) _ _ (by simp)]
    simp [List.map_map]
  · rw [if_neg hp, if_neg hp]
    rw [foldl_appendRow (fun row => (CsvDB.getHeaders st).1.map
        (fun h => (dget row h).getD "")) _ _ (by simp)]
    simp [List.map_map]

/-- A sane model type: at least one field, no duplicate fields, no two fields
sharing a storage header, and reverse-mapping a field's header recovers the
field. -/
def goodModel (m : ModelType) : Prop :=
  m.fields ≠ [] ∧ m.fields.Nodup ∧ (m.fields.map (mappedName m)).Nodup ∧
    ∀ f ∈ m.fields, revName m (mappedName m f) = f

instance (m : ModelType) : Decidable (goodModel m) := by
  unfold goodModel; infer_instance

/-- The header cache is either unpopulated or agrees with the file's first
line; every state reachable through the adapter's own operations satisfies
this. -/
def cacheOk (st : CsvState) : Prop :=
  st.cache = none ∨ st.cache = st.file.map (fun ls => ls.headD [])

instance (st : CsvState) : Decidable (cacheOk st) := by
  unfold cacheOk; infer_instance

theorem mapped_keys_eq {m : ModelType} {r : Record}
    (hwf : r.values.map Prod.fst = m.fields) :
    (r.values.map (fun p => (mappedName m p.1, p.2))).map Prod.fst
      = m.fields.map (mappedName m) := by
  rw [List.map_map, ← hwf, List.map_map]
  rfl

theorem mappedRow_of_wf {m : ModelType} {r : Record}
    (hwf : r.values.map Prod.fst = m.fields)
    (hnd : (m.fields.map (mappedName m)).Nodup) :
    mappedRow m r = r.values.map (fun p => (mappedName m p.1, p.2)) := by
  apply pyDict_eq_self
  rw [mapped_keys_eq hwf]
  exact hnd

theorem mappedRow_keys {m : ModelType} {r : Record}
    (hwf : r.values.map Prod.fst = m.fields)
    (hnd : (m.fields.map (mappedName m)).Nodup) :
    (mappedRow m r).map Prod.fst = m.fields.map (mappedName m) := by
  rw [mappedRow_of_wf hwf hnd]
  exact mapped_keys_eq hwf

theorem dget_mappedRow_mappedName {m : ModelType} {r : Record} {f : String}
    (hwf : r.values.map Prod.fst = m.fields)
    (hnd : (m.fields.map (mappedName m)).Nodup)
    (hf : f ∈ m.fields) :
    dget (mappedRow m r) (mappedName m f) = getAttr r f := by
  have hkey : (getAttr r f).isSome := by
    obtain ⟨p, hp, hp1⟩ := List.mem_map.mp (hwf.symm ▸ hf)
    exact dget_isSome_of_key ⟨p, hp, hp1⟩
  obtain ⟨v, hv⟩ := Option.isSome_iff_exists.mp hkey
  have hmem : (f, v) ∈ r.values := dget_mem hv
  have hmem2 : (mappedName m f, v) ∈ r.values.map (fun p => (mappedName m p.1, p.2)) :=
    List.mem_map.mpr ⟨(f, v), hmem, rfl⟩
  have hkeys : ((r.values.map (fun p => (mappedName m p.1, p.2))).map Prod.fst).Nodup := by
    rw [mapped_keys_eq hwf]
    exact hnd
  rw [mappedRow_of_wf hwf hnd, hv]
  exact (dget_mem_iff hkeys).mpr hmem2

theorem length_filter_not_eq {α : Type} (p : α → Bool) (l : List α) :
    (l.filter (fun a => !p a)).length = l.length - (l.filter p).length := by
  induction l with
  | nil => rfl
  | cons a l ih =>
    have hle := List.length_filter_le p l
    cases ha : p a <;> simp [List.filter_cons, ha, ih] <;> omega

theorem getHeaders_snd_file (st : CsvState) : (CsvDB.getHeaders st).2.file = st.file := by
  obtain ⟨file, cache⟩ := st
  cases cache with
  | some hs => rfl
  | none => cases file <;> rfl

theorem getHeaders_fst_of_cacheOk {st : CsvState} {H : List String} {rows : List (List String)}
    (hf : st.file = some (H :: rows)) (hc : cacheOk st) :
    (CsvDB.getHeaders st).1 = H := by
  obtain ⟨file, cache⟩ := st
  simp only at hf
  subst hf
  rcases hc with hc | hc
  · simp only at hc
    subst hc
    rfl
  · simp only at hc
    subst hc
    rfl

theorem getHeaders_snd_cache_of_cacheOk {st : CsvState} {H : List String}
    {rows : List (List String)}
    (hf : st.file = some (H :: rows)) (hc : cacheOk st) :
    (CsvDB.getHeaders st).2.cache = some H := by
  obtain ⟨file, cache⟩ := st
  simp only at hf
  subst hf
  rcases hc with hc | hc
  · simp only at hc
    subst hc
    rfl
  · simp only at hc
    subst hc
    rfl

theorem delete_snd (st : CsvState) (m : ModelType) (fl : List (String × String)) :
    (CsvDB.delete st m fl).2 =
      (match ((CsvDB.get_all st m []).filter (fun r => matchesF r fl)).getLast? with
       | none => Except.error DbError.notFound
       | some r => Except.ok r) := by
  simp only [CsvDB.delete]
  rw [deleteFold_snd]
  cases ((CsvDB.get_all st m []).filter (fun r => matchesF r fl)).getLast? <;> rfl

theorem update_snd (st : CsvState) (m : ModelType) (fl upd : List (String × String)) :
    (CsvDB.update st m fl upd).2
      = (CsvDB.updateScan fl upd (CsvDB.get_all st m [])).map Prod.snd := by
  simp only [CsvDB.update]
  cases CsvDB.updateScan fl upd (CsvDB.get_all st m []) with
  | error e => rfl
  | ok p =>
    obtain ⟨d2, it⟩ := p
    rfl

theorem updateScan_no_match {fl upd : List (String × String)} {l : List Record}
    (h : ∀ r ∈ l, matchesF r fl = false) :
    CsvDB.updateScan fl upd l = .error .notFound := by
  induction l with
  | nil => rfl
  | cons r rest ih =>
    rw [CsvDB.updateScan, if_neg (by simp [h r (List.mem_cons_self r rest)]),
      ih (fun q hq => h q (List.mem_cons_of_mem r hq))]
    rfl

theorem get_all_nil_header (m : ModelType) (rows : List (List String))
    (c : Option (List String)) (fl : List (String × String)) :
    CsvDB.get_all ⟨some ([] :: rows), c⟩ m fl = [] := by
  simp only [CsvDB.get_all]
  have hitems : (rows.filter (fun r => !r.isEmpty)).filterMap (parseDataRow m []) = [] := by
    rw [List.filterMap_eq_nil_iff]
    intro row hrow
    have hne : row ≠ [] := by
      have := List.of_mem_filter hrow
      simpa using this
    rw [parseDataRow, if_pos (by simpa using List.length_pos.mpr hne)]
  rw [hitems]
  cases fl <;> rfl

theorem get_all_writeRows (stb : CsvState) (m : ModelType) (H : List String)
    (rows' : List (List String)) :
    CsvDB.get_all (CsvDB.writeRows stb H rows') m []
      = (rows'.filter (fun r => !r.isEmpty)).filterMap (parseDataRow m H) := rfl

theorem delete_fst_of_match {st : CsvState} {m : ModelType} {fl : List (String × String)}
    {d : Record}
    (hd : ((CsvDB.get_all st m []).filter (fun r => matchesF r fl)).getLast? = some d) :
    (CsvDB.delete st m fl).1 = CsvDB.writeRows (CsvDB.getHeaders st).2 (CsvDB.getHeaders st).1
      (((CsvDB.get_all st m []).filter (fun r => !matchesF r fl)).map
        (fun it => projRow m (CsvDB.getHeaders st).1 it)) := by
  simp only [CsvDB.delete]
  have h2 : ((CsvDB.get_all st m []).foldl (CsvDB.deleteStep fl) ([], none)).2 = some d := by
    rw [deleteFold_snd, hd]; rfl
  have h1 : ((CsvDB.get_all st m []).foldl (CsvDB.deleteStep fl) ([], none)).1
      = (CsvDB.get_all st m []).filter (fun r => !matchesF r fl) := by
    rw [deleteFold_fst]; rfl
  simp only [h2, h1]

/-- Parsing the table written under the model's own mapped header row
recovers exactly the inserted records. -/
theorem get_all_canon (m : ModelType) (hg : goodModel m) (recs : List Record)
    (c : Option (List String))
    (hwf : ∀ r ∈ recs, r.values.map Prod.fst = m.fields) :
    CsvDB.get_all ⟨some ((m.fields.map (mappedName m)) ::
        recs.map (fun r => (m.fields.map (mappedName m)).map
          (fun h => (dget (mappedRow m r) h).getD ""))), c⟩ m [] = recs := by
  obtain ⟨hne0, hndf, hndm, hrev⟩ := hg
  have hcanon_ne : m.fields.map (mappedName m) ≠ [] := by
    intro h; exact hne0 (List.map_eq_nil_iff.mp h)
  have hparse : ∀ r ∈ recs,
      parseDataRow m (m.fields.map (mappedName m))
        ((m.fields.map (mappedName m)).map (fun h => (dget (mappedRow m r) h).getD ""))
        = some r := by
    intro r hr
    apply parse_row_of_fn m _ _ r hndf (hwf r hr)
    · intro h hh
      obtain ⟨f0, hf0, rfl⟩ := List.mem_map.mp hh
      rw [dget_mappedRow_mappedName (hwf r hr) hndm hf0, hrev f0 hf0]
    · intro f hf
      exact ⟨mappedName m f, List.mem_map_of_mem _ hf, hrev f hf⟩
  show (((recs.map (fun r => (m.fields.map (mappedName m)).map
      (fun h => (dget (mappedRow m r) h).getD ""))).filter (fun r => !r.isEmpty)).filterMap
        (parseDataRow m (m.fields.map (mappedName m)))) = recs
  rw [filter_nonblank (by
    intro q hq
    obtain ⟨r, hr, rfl⟩ := List.mem_map.mp hq
    intro hq2
    exact hcanon_ne (List.map_eq_nil_iff.mp hq2))]
  rw [List.filterMap_map]
  simp only [Function.comp_def]
  rw [filterMap_eq_map_of_some (f := id) (fun r hr => hparse r hr), List.map_id]

/-! ## Concrete instances used to exercise the theorems -/

/-- The `User` model type of the repository's demo script: three fields with
the demo's header map. -/
def demoUser : ModelType :=
  ⟨"Users", ["id", "name", "email"],
   [("id", "User ID"), ("name", "Full Name"), ("email", "Email Address")]⟩

/-- A two-field, identity-mapped model type. -/
def demoModel : ModelType := ⟨"T", ["id", "name"], []⟩

/-- A table for `demoModel` with three data rows, the first two sharing
`name = "a"`. -/
def demoState : CsvState :=
  ⟨some [["id", "name"], ["1", "a"], ["2", "a"], ["3", "b"]], none⟩

/-- A table for `demoModel` with two data rows, both matching `name = "a"`. -/
def demoState2 : CsvState :=
  ⟨some [["id", "name"], ["1", "a"], ["2", "a"]], none⟩

/-! ## Claims -/

/-- C2: for every model class, the classmethod `generate_field_map()` returns
the inverse of the field-to-header mapping — provided no two fields map to
the same header, a field maps to a header exactly when the generated reverse
map sends that header back to the field. -/
theorem C2_generate_field_map_inverse (m : ModelType)
    (hinj : (m.get_field_map.map Prod.snd).Nodup) :
    ∀ f h, dget m.get_field_map f = some h ↔ dget m.generate_field_map h = some f := by
  intro f h
  have hkeys : (m.get_field_map.map Prod.fst).Nodup := pyDict_keys_nodup _
  have hswapkeys : ((m.get_field_map.map (fun p => (p.2, p.1))).map Prod.fst).Nodup := by
    rw [List.map_map]
    exact hinj
  have hgen : m.generate_field_map = m.get_field_map.map (fun p => (p.2, p.1)) := by
    unfold ModelType.generate_field_map
    exact pyDict_eq_self hswapkeys
  constructor
  · intro hget
    rw [hgen]
    exact (dget_mem_iff hswapkeys).mpr (List.mem_map.mpr ⟨(f, h), dget_mem hget, rfl⟩)
  · intro hget
    rw [hgen] at hget
    have hmem := (dget_mem_iff hswapkeys).mp hget
    obtain ⟨⟨f2, h2⟩, hmem2, heq⟩ := List.mem_map.mp hmem
    simp only [Prod.mk.injEq] at heq
    obtain ⟨rfl, rfl⟩ := heq
    exact (dget_mem_iff hkeys).mpr hmem2

/-- Witness for C2 at the demo's `User` field map. -/
theorem C2_witness :
    (demoUser.get_field_map.map Prod.snd).Nodup ∧
    (dget demoUser.get_field_map "name" = some "Full Name" ↔
      dget demoUser.generate_field_map "Full Name" = some "name") :=
  ⟨by decide, C2_generate_field_map_inverse demoUser (by decide) "name" "Full Name"⟩

/-- C3 counterexample: on the workbook adapter, `get_all` for a model whose
sheet does not exist raises `ValueError` (from `_get_worksheet` with no
headers) instead of returning an empty sequence. -/
theorem C3_counterexample :
    (ExcelDB.get_all ⟨[], []⟩ demoUser []).2 = Except.error DbError.valueError := by
  decide

/-- C3 amended: when the table does not exist, `get_all` returns an empty
sequence only in the delimited-text adapter; the workbook and
remote-spreadsheet adapters raise `ValueError` because `_get_worksheet` is
called without headers. -/
theorem C3_amended (st : CsvState) (wst : XlState) (gst : GsState) (m : ModelType)
    (fl : List (String × String))
    (hcsv : st.file = none)
    (hxl : dget wst.sheets m.sheet_name = none)
    (hgs : dget gst.sheets m.sheet_name = none) :
    CsvDB.get_all st m fl = [] ∧
    (ExcelDB.get_all wst m fl).2 = Except.error DbError.valueError ∧
    (GoogleSheetDB.get_all gst m fl).2 = Except.error DbError.valueError := by
  refine ⟨?_, ?_, ?_⟩
  · obtain ⟨file, cache⟩ := st
    have hf : file = none := hcsv
    subst hf
    rfl
  · simp only [ExcelDB.get_all, hxl]
  · simp only [GoogleSheetDB.get_all, hgs]

/-- Witness for C3 at concrete empty media. -/
theorem C3_witness :
    CsvDB.get_all ⟨none, none⟩ demoUser [] = [] ∧
    (ExcelDB.get_all ⟨[], []⟩ demoUser []).2 = Except.error DbError.valueError ∧
    (GoogleSheetDB.get_all ⟨[], []⟩ demoUser []).2 = Except.error DbError.valueError :=
  C3_amended ⟨none, none⟩ ⟨[], []⟩ ⟨[], []⟩ demoUser [] rfl rfl rfl

/-- C4 counterexample: with two records matching the filter, `delete` does
not resolve to the first match in scan order — it returns the second (last)
matching record. -/
theorem C4_counterexample :
    (CsvDB.get_all demoState2 demoModel []).find? (fun r => matchesF r [("name", "a")])
        = some ⟨[("id", "1"), ("name", "a")]⟩ ∧
    (CsvDB.delete demoState2 demoModel [("name", "a")]).2
        = Except.ok ⟨[("id", "2"), ("name", "a")]⟩ ∧
    (⟨[("id", "2"), ("name", "a")]⟩ : Record) ≠ ⟨[("id", "1"), ("name", "a")]⟩ := by
  decide

/-- C4 amended: with zero matching records `get_one`, `update` and `delete`
all raise `NotFoundError`; with at least one match `get_one` returns the
first match, `update` targets the first match (erroring if an update key is
not a declared field), while `delete` returns the last matching record (it
removes every match, see the C1 theorem). -/
theorem C4_amended (st : CsvState) (m : ModelType) (fl upd : List (String × String)) :
    CsvDB.get_one st m fl =
      (match ((CsvDB.get_all st m []).filter (fun r => matchesF r fl)).head? with
       | none => Except.error DbError.notFound
       | some r => Except.ok r) ∧
    (CsvDB.delete st m fl).2 =
      (match ((CsvDB.get_all st m []).filter (fun r => matchesF r fl)).getLast? with
       | none => Except.error DbError.notFound
       | some r => Except.ok r) ∧
    (CsvDB.update st m fl upd).2 =
      (match ((CsvDB.get_all st m []).filter (fun r => matchesF r fl)).head? with
       | none => Except.error DbError.notFound
       | some r =>
         match applyUpdates r upd with
         | none => Except.error DbError.attrError
         | some r2 => Except.ok r2) := by
  refine ⟨?_, delete_snd st m fl, ?_⟩
  · simp only [CsvDB.get_one, find?_eq_filter_head]
    cases ((CsvDB.get_all st m []).filter (fun r => matchesF r fl)).head? <;> rfl
  · rw [update_snd, updateScan_map_snd]

/-- C7: `get_one` — implemented by re-scanning the unfiltered `get_all`
result — returns exactly the first element of the filtered `get_all` result,
and `NotFoundError` when that result is empty. -/
theorem C7_get_one_refines_get_all (st : CsvState) (m : ModelType)
    (fl : List (String × String)) :
    CsvDB.get_one st m fl =
      (match (CsvDB.get_all st m fl).head? with
       | none => Except.error DbError.notFound
       | some r => Except.ok r) := by
  simp only [CsvDB.get_one, find?_eq_filter_head, ← get_all_eq_filter]
  cases (CsvDB.get_all st m fl).head? <;> rfl

/-- C9: `insert_many` with an empty record list returns immediately and
leaves the state — file, worksheets and header cache — untouched, in both the
delimited-text and the remote-spreadsheet adapters. -/
theorem C9_insert_many_empty_noop (st : CsvState) (gst : GsState) (m : ModelType) :
    CsvDB.insert_many st m [] = st ∧ GoogleSheetDB.insert_many gst m [] = gst :=
  ⟨rfl, rfl⟩

/-- C10: when no record matches the filters, `update` and `delete` raise
`NotFoundError` before any write: the state (file and header cache) is
returned exactly as it was. -/
theorem C10_atomic_failure (st : CsvState) (m : ModelType)
    (fl upd : List (String × String))
    (h : ∀ r ∈ CsvDB.get_all st m [], matchesF r fl = false) :
    CsvDB.update st m fl upd = (st, Except.error DbError.notFound) ∧
    CsvDB.delete st m fl = (st, Except.error DbError.notFound) := by
  have hfil : (CsvDB.get_all st m []).filter (fun r => matchesF r fl) = [] := by
    rw [List.filter_eq_nil_iff]
    intro a ha
    simp [h a ha]
  constructor
  · have hscan := @updateScan_no_match fl upd (CsvDB.get_all st m []) h
    simp only [CsvDB.update, hscan]
  · simp only [CsvDB.delete, deleteFold_snd, hfil]
    rfl

/-- Witness for C10: a filter matching nothing leaves the concrete table
untouched. -/
theorem C10_witness :
    (∀ r ∈ CsvDB.get_all demoState demoModel [], matchesF r [("name", "zz")] = false) ∧
    CsvDB.update demoState demoModel [("name", "zz")] [("name", "q")]
      = (demoState, Except.error DbError.notFound) ∧
    CsvDB.delete demoState demoModel [("name", "zz")]
      = (demoState, Except.error DbError.notFound) :=
  ⟨by decide, C10_atomic_failure demoState demoModel [("name", "zz")] [("name", "q")]
    (by decide)⟩

/-- C1 counterexample: deleting with a filter matched by two records removes
both of them — the row count drops from 3 to 1, not by exactly one. -/
theorem C1_counterexample :
    (CsvDB.get_all demoState demoModel []).length = 3 ∧
    (CsvDB.get_all
        (CsvDB.delete demoState demoModel [("name", "a")]).1 demoModel []).length = 1 ∧
    ¬ ((CsvDB.get_all
        (CsvDB.delete demoState demoModel [("name", "a")]).1 demoModel []).length
      = (CsvDB.get_all demoState demoModel []).length - 1) := by
  decide

/-- C1 amended: for the delimited-text adapter, `delete` removes *every*
matching record (the scan loop has no `break`): afterwards `get_all` returns
exactly the non-matching records in their original relative order, the row
count decreases by the number of matches, and the returned record is the
*last* match in scan order. -/
theorem C1_delete_removes_all_matches (st : CsvState) (m : ModelType) (H : List String)
    (rows : List (List String)) (fl : List (String × String))
    (hf : st.file = some (H :: rows)) (hc : cacheOk st) (hne : H ≠ [])
    (hnd : m.fields.Nodup)
    (hcov : ∀ f ∈ m.fields, ∃ h ∈ H, revName m h = f)
    (hmatch : (CsvDB.get_all st m []).filter (fun r => matchesF r fl) ≠ []) :
    (∃ d, ((CsvDB.get_all st m []).filter (fun r => matchesF r fl)).getLast? = some d ∧
      (CsvDB.delete st m fl).2 = Except.ok d) ∧
    CsvDB.get_all (CsvDB.delete st m fl).1 m []
      = (CsvDB.get_all st m []).filter (fun r => !matchesF r fl) ∧
    (CsvDB.get_all (CsvDB.delete st m fl).1 m []).length
      = (CsvDB.get_all st m []).length
        - ((CsvDB.get_all st m []).filter (fun r => matchesF r fl)).length := by
  obtain ⟨d, hd⟩ := Option.isSome_iff_exists.mp (List.getLast?_isSome.mpr hmatch)
  have hfst := delete_fst_of_match (m := m) hd
  have hH : (CsvDB.getHeaders st).1 = H := getHeaders_fst_of_cacheOk hf hc
  have hmain : CsvDB.get_all (CsvDB.delete st m fl).1 m []
      = (CsvDB.get_all st m []).filter (fun r => !matchesF r fl) := by
    rw [hfst]
    simp only [hH]
    rw [get_all_writeRows]
    rw [filter_nonblank (by
      intro q hq
      obtain ⟨r, hr, rfl⟩ := List.mem_map.mp hq
      intro h0
      exact hne (List.map_eq_nil_iff.mp h0))]
    rw [List.filterMap_map]
    simp only [Function.comp_def]
    have hpar : ∀ r ∈ (CsvDB.get_all st m []).filter (fun r => !matchesF r fl),
        parseDataRow m H (projRow m H r) = some r := by
      intro r hr
      have hrwf : r.values.map Prod.fst = m.fields := get_all_wf (List.mem_of_mem_filter hr)
      exact parse_row_of_fn m H _ r hnd hrwf (fun h hh => rfl) hcov
    rw [filterMap_eq_map_of_some (f := id) hpar, List.map_id]
  refine ⟨⟨d, hd, ?_⟩, hmain, ?_⟩
  · rw [delete_snd, hd]
  · rw [hmain, length_filter_not_eq]

/-- Witness for C1 at the concrete three-row table with two matches. -/
theorem C1_witness :
    CsvDB.get_all (CsvDB.delete demoState demoModel [("name", "a")]).1 demoModel []
      = (CsvDB.get_all demoState demoModel []).filter
          (fun r => !matchesF r [("name", "a")]) :=
  (C1_delete_removes_all_matches demoState demoModel ["id", "name"]
    [["1", "a"], ["2", "a"], ["3", "b"]] [("name", "a")] rfl (by decide) (by decide)
    (by decide) (by decide) (by decide)).2.1

/-- C6: `insert_many` on a non-empty record list: if the resolved header row
is unset, it is created as the first record's mapped field names in declared
field order and written as the file's first line ahead of the data rows (and
cached); then one row per record is appended in input order, each cell being
the record's mapped value for that header — empty string when the record does
not declare a field for it — so record fields without a matching header are
dropped. -/
theorem C6_insert_many_semantics (st : CsvState) (m : ModelType)
    (r0 : Record) (rs : List Record) :
    CsvDB.insert_many st m (r0 :: rs) =
      if (CsvDB.getHeaders st).1 = [] then
        { file := some (((mappedRow m r0).map Prod.fst) ::
            (r0 :: rs).map (fun r => ((mappedRow m r0).map Prod.fst).map
              (fun h => (dget (mappedRow m r) h).getD ""))),
          cache := some ((mappedRow m r0).map Prod.fst) }
      else
        { (CsvDB.getHeaders st).2 with
          file := some (((CsvDB.getHeaders st).2.file.getD []) ++
            (r0 :: rs).map (fun r => (CsvDB.getHeaders st).1.map
              (fun h => (dget (mappedRow m r) h).getD ""))) } :=
  insert_many_spec st m r0 rs

/-- C5: inserting a non-empty well-formed record sequence of one model type
into an empty table — no file, an empty file, or a header-only table carrying
the model's own mapped header row — and then reading back with `get_all` and
no filters returns the very same records in the same relative order, every
field value surviving the projection through the field-to-header mapping and
back. -/
theorem C5_insert_roundtrip (st : CsvState) (m : ModelType) (rs : List Record)
    (hg : goodModel m)
    (hwf : ∀ r ∈ rs, r.values.map Prod.fst = m.fields)
    (hne : rs ≠ [])
    (hstate : (st.file = none ∧ st.cache = none) ∨
      (st.file = some [] ∧ (st.cache = none ∨ st.cache = some [])) ∨
      (st.file = some [m.fields.map (mappedName m)] ∧
        (st.cache = none ∨ st.cache = some (m.fields.map (mappedName m))))) :
    CsvDB.get_all (CsvDB.insert_many st m rs) m [] = rs := by
  obtain ⟨r0, rest, rfl⟩ : ∃ a l, rs = a :: l := by
    cases rs with
    | nil => exact absurd rfl hne
    | cons a l => exact ⟨a, l, rfl⟩
  have hwf0 := hwf r0 (List.mem_cons_self _ _)
  have hndm : (m.fields.map (mappedName m)).Nodup := hg.2.2.1
  have hH0 : (mappedRow m r0).map Prod.fst = m.fields.map (mappedName m) :=
    mappedRow_keys hwf0 hndm
  have hcanon_ne : m.fields.map (mappedName m) ≠ [] := fun h =>
    hg.1 (List.map_eq_nil_iff.mp h)
  obtain ⟨file, cache⟩ := st
  rw [insert_many_spec]
  rcases hstate with ⟨hf, hc⟩ | ⟨hf, hc⟩ | ⟨hf, hc⟩
  · have hf' : file = none := hf
    have hc' : cache = none := hc
    subst hf'
    subst hc'
    have hgh : (CsvDB.getHeaders ⟨none, none⟩).1 = [] := rfl
    simp only [hgh]
    rw [if_pos trivial]
    simp only [hH0]
    exact get_all_canon m hg (r0 :: rest) _ hwf
  · have hf' : file = some [] := hf
    subst hf'
    rcases hc with hc' | hc'
    · have hcn : cache = none := hc'
      subst hcn
      have hgh : (CsvDB.getHeaders ⟨some [], none⟩).1 = [] := rfl
      simp only [hgh]
      rw [if_pos trivial]
      simp only [hH0]
      exact get_all_canon m hg (r0 :: rest) _ hwf
    · have hcn : cache = some [] := hc'
      subst hcn
      have hgh : (CsvDB.getHeaders ⟨some [], some []⟩).1 = [] := rfl
      simp only [hgh]
      rw [if_pos trivial]
      simp only [hH0]
      exact get_all_canon m hg (r0 :: rest) _ hwf
  · have hf' : file = some [m.fields.map (mappedName m)] := hf
    subst hf'
    rcases hc with hc' | hc'
    · have hcn : cache = none := hc'
      subst hcn
      have hgh : (CsvDB.getHeaders ⟨some [m.fields.map (mappedName m)], none⟩).1
          = m.fields.map (mappedName m) := rfl
      simp only [hgh]
      rw [if_neg hcanon_ne]
      exact get_all_canon m hg (r0 :: rest) (some (m.fields.map (mappedName m))) hwf
    · have hcn : cache = some (m.fields.map (mappedName m)) := hc'
      subst hcn
      have hgh : (CsvDB.getHeaders ⟨some [m.fields.map (mappedName m)],
          some (m.fields.map (mappedName m))⟩).1 = m.fields.map (mappedName m) := rfl
      simp only [hgh]
      rw [if_neg hcanon_ne]
      exact get_all_canon m hg (r0 :: rest) (some (m.fields.map (mappedName m))) hwf

/-- Witness for C5: two demo `User` records round-trip through an absent
file. -/
theorem C5_witness :
    CsvDB.get_all (CsvDB.insert_many ⟨none, none⟩ demoUser
        [⟨[("id", "1"), ("name", "Alice"), ("email", "a@x.com")]⟩,
         ⟨[("id", "2"), ("name", "Bob"), ("email", "b@x.com")]⟩]) demoUser []
      = [⟨[("id", "1"), ("name", "Alice"), ("email", "a@x.com")]⟩,
         ⟨[("id", "2"), ("name", "Bob"), ("email", "b@x.com")]⟩] :=
  C5_insert_roundtrip ⟨none, none⟩ demoUser
    [⟨[("id", "1"), ("name", "Alice"), ("email", "a@x.com")]⟩,
     ⟨[("id", "2"), ("name", "Bob"), ("email", "b@x.com")]⟩]
    (by decide) (by decide) (by decide) (Or.inl ⟨rfl, rfl⟩)

/-- C8: `delete_all` keeps the header row (the file's first line) unchanged
while removing all data rows: a subsequent unfiltered `get_all` is empty, the
call is a no-op on the file when the table has no data rows (never an
error), and a subsequent non-empty insert reuses the existing header row —
the rewritten file still starts with the same header line. -/
theorem C8_delete_all_frame (st : CsvState) (m : ModelType) (hc : cacheOk st) :
    CsvDB.get_all (CsvDB.delete_all st m) m [] = [] ∧
    (CsvDB.delete_all st m).file.bind List.head? = st.file.bind List.head? ∧
    ((st.file.getD []).drop 1 = [] → (CsvDB.delete_all st m).file = st.file) ∧
    (∀ H rows, st.file = some (H :: rows) → H ≠ [] →
      ∀ r rsx, ((CsvDB.insert_many (CsvDB.delete_all st m) m (r :: rsx)).file).bind
        List.head? = some H) := by
  obtain ⟨file, cache⟩ := st
  cases file with
  | none =>
    have hcache : cache = none := by
      rcases hc with hc | hc
      · exact hc
      · exact hc
    subst hcache
    exact ⟨rfl, rfl, fun _ => rfl, fun H rows hfe _ _ _ => Option.noConfusion hfe⟩
  | some lines =>
    have hcache : cache = none ∨ cache = some (lines.headD []) := by
      rcases hc with hc | hc
      · exact Or.inl hc
      · exact Or.inr hc
    cases lines with
    | nil =>
      rcases hcache with rfl | rfl
      · refine ⟨rfl, rfl, fun _ => rfl, ?_⟩
        intro H rows hfe _ _ _
        injection hfe with h1
        exact List.noConfusion h1
      · refine ⟨rfl, rfl, fun _ => rfl, ?_⟩
        intro H rows hfe _ _ _
        injection hfe with h1
        exact List.noConfusion h1
    | cons H0 rows0 =>
      by_cases hH : H0 = []
      · subst hH
        rcases hcache with rfl | rfl
        · refine ⟨?_, rfl, fun _ => rfl, ?_⟩
          · exact get_all_nil_header m rows0 (some []) []
          · intro H rows hfe hne2 r rsx
            injection hfe with h1
            injection h1 with h2 h3
            exact absurd h2.symm hne2
        · refine ⟨?_, rfl, fun _ => rfl, ?_⟩
          · exact get_all_nil_header m rows0 (some []) []
          · intro H rows hfe hne2 r rsx
            injection hfe with h1
            injection h1 with h2 h3
            exact absurd h2.symm hne2
      · rcases hcache with rfl | rfl
        · have hgh : (CsvDB.getHeaders ⟨some (H0 :: rows0), none⟩).1 = H0 := rfl
          have hda : CsvDB.delete_all ⟨some (H0 :: rows0), none⟩ m
              = ⟨some [H0], some H0⟩ := by
            simp only [CsvDB.delete_all, hgh]
            rw [if_neg hH]
            rfl
          simp only [hda]
          refine ⟨rfl, rfl, ?_, ?_⟩
          · intro h
            have h' : rows0 = [] := h
            subst h'
            rfl
          · intro H rows hfe hne2 r rsx
            injection hfe with h1
            injection h1 with h2 h3
            subst h2
            have hgh2 : (CsvDB.getHeaders ⟨some [H0], some H0⟩).1 = H0 := rfl
            rw [insert_many_spec]
            simp only [hgh2]
            rw [if_neg hH]
            rfl
        · have hgh : (CsvDB.getHeaders ⟨some (H0 :: rows0),
              some ((H0 :: rows0).headD [])⟩).1 = H0 := rfl
          have hda : CsvDB.delete_all ⟨some (H0 :: rows0),
              some ((H0 :: rows0).headD [])⟩ m = ⟨some [H0], some H0⟩ := by
            simp only [CsvDB.delete_all, hgh]
            rw [if_neg hH]
            rfl
          simp only [hda]
          refine ⟨rfl, rfl, ?_, ?_⟩
          · intro h
            have h' : rows0 = [] := h
            subst h'
            rfl
          · intro H rows hfe hne2 r rsx
            injection hfe with h1
            injection h1 with h2 h3
            subst h2
            have hgh2 : (CsvDB.getHeaders ⟨some [H0], some H0⟩).1 = H0 := rfl
            rw [insert_many_spec]
            simp only [hgh2]
            rw [if_neg hH]
            rfl

/-- Witness for C8: clearing the concrete three-row table empties it, keeps
the header line, and a subsequent insert reuses that header line. -/
theorem C8_witness :
    CsvDB.get_all (CsvDB.delete_all demoState demoModel) demoModel [] = [] ∧
    (CsvDB.delete_all demoState demoModel).file.bind List.head?
      = demoState.file.bind List.head? ∧
    ((CsvDB.insert_many (CsvDB.delete_all demoState demoModel) demoModel
        [⟨[("id", "9"), ("name", "z")]⟩]).file).bind List.head?
      = some ["id", "name"] := by
  have h := C8_delete_all_frame demoState demoModel (by decide)
  exact ⟨h.1, h.2.1,
    h.2.2.2 ["id", "name"] [["1", "a"], ["2", "a"], ["3", "b"]] rfl (by decide)
      ⟨[("id", "9"), ("name", "z")]⟩ []⟩
